import Mathlib

/-!
# Verification of the Tab Snab audio capture / transcription pipeline

Shallow embedding of the extension's options-script core
(`resampleTo16kHZ`, the Int16 PCM encoder in `recorder.onaudioprocess`,
the transcript reconciler in `socket.onmessage`, and the
`startRecord` / `stopRecording` lifecycle), with theorems checking the
specification's claims against these definitions.

JavaScript numbers are modelled as rationals (exact arithmetic);
JavaScript strings as Lean strings.
-/

namespace TabSnab

/-- `Math.round` for a non-negative JavaScript number: round half toward
positive infinity, i.e. `⌊q + 1/2⌋`. -/
def jsRound (q : ℚ) : ℤ := ⌊q + 1/2⌋

/-- The resampler's target length: `Math.round(data.length * (16000 / origSampleRate))`
(`resampleTo16kHZ`, README lines 116-142). -/
def targetLength (len : ℕ) (origSampleRate : ℚ) : ℕ :=
  (jsRound ((len : ℚ) * (16000 / origSampleRate))).toNat

/-- The constant "spring factor" `(data.length - 1) / (targetLength - 1)`. -/
def springFactor (len tLen : ℕ) : ℚ := ((len : ℚ) - 1) / ((tLen : ℚ) - 1)

/-- Embedding of `resampleTo16kHZ` (README lines 116-142).  The JS code
fills a fresh `Float32Array` by writing index `0`, then index
`targetLength - 1`, then the interior indices `1 .. targetLength - 2`;
the final content of each cell is reproduced here (the write at
`targetLength - 1` overwrites the one at `0` when `targetLength = 1`;
out-of-range writes on a typed array are ignored, so a target length of
`0` yields the empty array). -/
def resampleTo16kHZ (audioData : List ℚ) (origSampleRate : ℚ) : List ℚ :=
  let data := audioData
  let tLen := targetLength data.length origSampleRate
  (List.range tLen).map (fun i =>
    if i = tLen - 1 then data.getD (data.length - 1) 0
    else if i = 0 then data.getD 0 0
    else
      let index : ℚ := (i : ℚ) * springFactor data.length tLen
      let fraction : ℚ := index - (⌊index⌋ : ℚ)
      data.getD (⌊index⌋).toNat 0 +
        (data.getD (⌈index⌉).toNat 0 - data.getD (⌊index⌋).toNat 0) * fraction)

/-- JavaScript `ToIntegerOrInfinity` on a finite number: truncation toward
zero. -/
def jsTrunc (q : ℚ) : ℤ := if q < 0 then ⌈q⌉ else ⌊q⌋

/-- Storing a JavaScript number into an `Int16Array` cell: truncate toward
zero, reduce modulo 2^16, and reinterpret as a signed 16-bit value. -/
def toInt16 (q : ℚ) : ℤ :=
  let n := jsTrunc q
  let m := n % 65536
  if 32768 ≤ m then m - 65536 else m

/-- The clamp `Math.max(-1, Math.min(1, x))` from the encoding loop. -/
def clamp (x : ℚ) : ℚ := max (-1) (min 1 x)

/-- One sample of the encoding loop in `recorder.onaudioprocess`
(README lines 240-243): `s = clamp(x); s < 0 ? s * 0x8000 : s * 0x7FFF`
stored into an `Int16Array`. -/
def encodeSample (x : ℚ) : ℤ :=
  let s := clamp x
  toInt16 (if s < 0 then s * 32768 else s * 32767)

/-- The whole `Float32Array → Int16Array` conversion of one frame. -/
def encodeFrame (frame : List ℚ) : List ℤ := frame.map encodeSample

lemma resample_getD (data : List ℚ) (orig : ℚ) (i : ℕ)
    (h : i < targetLength data.length orig) :
    (resampleTo16kHZ data orig).getD i 0 =
      (if i = targetLength data.length orig - 1 then data.getD (data.length - 1) 0
       else if i = 0 then data.getD 0 0
       else
         data.getD (⌊(i : ℚ) * springFactor data.length (targetLength data.length orig)⌋).toNat 0 +
           (data.getD (⌈(i : ℚ) * springFactor data.length (targetLength data.length orig)⌉).toNat 0 -
             data.getD (⌊(i : ℚ) * springFactor data.length (targetLength data.length orig)⌋).toNat 0) *
           ((i : ℚ) * springFactor data.length (targetLength data.length orig) -
             (⌊(i : ℚ) * springFactor data.length (targetLength data.length orig)⌋ : ℚ))) := by
  unfold resampleTo16kHZ
  rw [List.getD_eq_getElem?_getD, List.getElem?_map, List.getElem?_range h]
  rfl

lemma resample_length (data : List ℚ) (orig : ℚ) :
    (resampleTo16kHZ data orig).length = targetLength data.length orig := by
  unfold resampleTo16kHZ
  rw [List.length_map, List.length_range]

lemma targetLength_nil (orig : ℚ) : targetLength 0 orig = 0 := by
  have h0 : jsRound (0 : ℚ) = 0 := by
    norm_num [jsRound, Int.floor_eq_iff]
  simp [targetLength, h0]

/-- C1: for input length `L ≥ 2` and computed target length
`round(L * 16000/orig) ≥ 2`, `resampleTo16kHZ` returns exactly
`targetLength` samples, preserves the first and last input samples
exactly, and fills every interior position `i` with the linear
interpolation `data[⌊i*f⌋] + (data[⌈i*f⌉] - data[⌊i*f⌋]) * (i*f - ⌊i*f⌋)`
at spring factor `f = (L-1)/(targetLength-1)`. -/
theorem resample_spec (data : List ℚ) (orig : ℚ)
    (hL : 2 ≤ data.length) (hT : 2 ≤ targetLength data.length orig) :
    (resampleTo16kHZ data orig).length = targetLength data.length orig ∧
    (resampleTo16kHZ data orig).getD 0 0 = data.getD 0 0 ∧
    (resampleTo16kHZ data orig).getD (targetLength data.length orig - 1) 0 =
      data.getD (data.length - 1) 0 ∧
    ∀ i : ℕ, 0 < i → i < targetLength data.length orig - 1 →
      (resampleTo16kHZ data orig).getD i 0 =
        data.getD (⌊(i : ℚ) * springFactor data.length (targetLength data.length orig)⌋).toNat 0 +
          (data.getD (⌈(i : ℚ) * springFactor data.length (targetLength data.length orig)⌉).toNat 0 -
            data.getD (⌊(i : ℚ) * springFactor data.length (targetLength data.length orig)⌋).toNat 0) *
          ((i : ℚ) * springFactor data.length (targetLength data.length orig) -
            (⌊(i : ℚ) * springFactor data.length (targetLength data.length orig)⌋ : ℚ)) := by
  have hlen := resample_length data orig
  refine ⟨hlen, ?_, ?_, ?_⟩
  · rw [resample_getD data orig 0 (by omega), if_neg (by omega), if_pos rfl]
  · rw [resample_getD data orig _ (by omega), if_pos rfl]
  · intro i h0 h1
    rw [resample_getD data orig i (by omega), if_neg (by omega), if_neg (by omega)]

/-- C9: when the computed target length is exactly 1, the resampler
returns the one-element list holding the input's last sample (the
last-sample write overwrites the first-sample write at index 0), and an
empty input yields an empty output. -/
theorem resample_degenerate :
    (∀ (data : List ℚ) (orig : ℚ), data ≠ [] → targetLength data.length orig = 1 →
      resampleTo16kHZ data orig = [data.getD (data.length - 1) 0]) ∧
    ∀ orig : ℚ, resampleTo16kHZ ([] : List ℚ) orig = [] := by
  constructor
  · intro data orig _ h1
    unfold resampleTo16kHZ
    simp [h1, List.range_succ]
  · intro orig
    unfold resampleTo16kHZ
    simp [targetLength_nil]

/-- Witness for C1 at the concrete input `[0, 3]` with original rate 8000:
target length 4, first/last preserved, and interior sample 1 interpolated
to the value 1. -/
theorem resample_spec_witness :
    (resampleTo16kHZ [0, 3] 8000).length = targetLength 2 8000 ∧
    (resampleTo16kHZ [0, 3] 8000).getD 0 0 = 0 ∧
    (resampleTo16kHZ [0, 3] 8000).getD (targetLength 2 8000 - 1) 0 = 3 ∧
    (resampleTo16kHZ [0, 3] 8000).getD 1 0 = 1 := by
  have hT : targetLength (List.length [(0 : ℚ), 3]) 8000 = 4 := by
    have h : jsRound ((2 : ℚ) * (16000 / 8000)) = 4 := by
      norm_num [jsRound, Int.floor_eq_iff]
    simp [targetLength, h]
  have h := resample_spec [0, 3] 8000 (by simp) (by rw [hT]; omega)
  refine ⟨h.1, h.2.1, h.2.2.1, ?_⟩
  have h2 := h.2.2.2 1 (by omega) (by rw [hT]; omega)
  rw [h2, hT]
  have hf : springFactor (List.length [(0 : ℚ), 3]) 4 = 1/3 := by
    norm_num [springFactor]
  rw [hf]
  have hup : ((1 : ℕ) : ℚ) * (1/3) = 1/3 := by norm_num
  rw [hup]
  have hfl : (⌊(1 : ℚ)/3⌋ : ℤ) = 0 := by norm_num [Int.floor_eq_iff]
  have hcl : (⌈(1 : ℚ)/3⌉ : ℤ) = 1 := by norm_num [Int.ceil_eq_iff]
  rw [hfl, hcl]
  norm_num

/-- Witness for C9: input `[3, 4]` at rate 44100 has target length 1 and
resamples to the one-element list holding the last input sample. -/
theorem resample_degenerate_witness : resampleTo16kHZ [3, 4] 44100 = [4] := by
  have hT : targetLength (List.length [(3 : ℚ), 4]) 44100 = 1 := by
    have h : jsRound ((2 : ℚ) * (16000 / 44100)) = 1 := by
      norm_num [jsRound, Int.floor_eq_iff]
    simp [targetLength, h]
  exact resample_degenerate.1 [3, 4] 44100 (by simp) hT

lemma clamp_lower (x : ℚ) : -1 ≤ clamp x := le_max_left _ _

lemma clamp_upper (x : ℚ) : clamp x ≤ 1 := max_le (by norm_num) (min_le_left _ _)

lemma clamp_neg_iff (x : ℚ) : clamp x < 0 ↔ x < 0 := by
  unfold clamp
  constructor
  · intro h
    by_contra hx
    push_neg at hx
    have h1 : (0 : ℚ) ≤ min 1 x := le_min (by norm_num) hx
    have h2 := le_max_right (-1 : ℚ) (min 1 x)
    linarith
  · intro h
    have h1 : min 1 x = x := min_eq_right (by linarith)
    rw [h1]
    exact max_lt (by norm_num) h

lemma toInt16_id (n : ℤ) (h1 : -32768 ≤ n) (h2 : n ≤ 32767) :
    (if 32768 ≤ n % 65536 then n % 65536 - 65536 else n % 65536) = n := by
  omega

/-- C2: each sample is encoded as `clamp(s, -1, 1)` scaled by 32768 when
negative and 32767 otherwise, truncated toward zero (the 16-bit store
never wraps); in particular 0 ↦ 0, 1 ↦ 32767, -1 ↦ -32768, any `s > 1`
↦ 32767 and any `s < -1` ↦ -32768. -/
theorem encode_spec :
    (∀ s : ℚ, encodeSample s = jsTrunc (clamp s * (if s < 0 then 32768 else 32767))) ∧
    encodeSample 0 = 0 ∧ encodeSample 1 = 32767 ∧ encodeSample (-1) = -32768 ∧
    (∀ s : ℚ, 1 < s → encodeSample s = 32767) ∧
    (∀ s : ℚ, s < -1 → encodeSample s = -32768) := by
  have hmain : ∀ s : ℚ, encodeSample s = jsTrunc (clamp s * (if s < 0 then 32768 else 32767)) := by
    intro s
    by_cases hs : s < 0
    · have hc : clamp s < 0 := (clamp_neg_iff s).mpr hs
      have hvlt : clamp s * 32768 < 0 := mul_neg_of_neg_of_pos hc (by norm_num)
      have hv1 : (-32768 : ℚ) ≤ clamp s * 32768 := by
        have h := mul_le_mul_of_nonneg_right (clamp_lower s) (by norm_num : (0:ℚ) ≤ 32768)
        linarith
      have hlo : (-32768 : ℤ) ≤ ⌈clamp s * 32768⌉ := by
        have hcast : ((-32768 : ℤ) : ℚ) ≤ clamp s * 32768 := by exact_mod_cast hv1
        have := Int.le_ceil (clamp s * 32768)
        exact_mod_cast hcast.trans this
      have hhi : ⌈clamp s * 32768⌉ ≤ 0 :=
        Int.ceil_le.mpr (by exact_mod_cast le_of_lt hvlt)
      simp only [encodeSample, toInt16, jsTrunc, if_pos hc, if_pos hs, if_pos hvlt]
      exact toInt16_id _ (by omega) (by omega)
    · have hc : ¬ clamp s < 0 := fun h => hs ((clamp_neg_iff s).mp h)
      push_neg at hc
      have hv0 : 0 ≤ clamp s * 32767 := mul_nonneg hc (by norm_num)
      have hv2 : clamp s * 32767 ≤ 32767 := by
        have h := mul_le_mul_of_nonneg_right (clamp_upper s) (by norm_num : (0:ℚ) ≤ 32767)
        linarith
      have hvnlt : ¬ clamp s * 32767 < 0 := not_lt.mpr hv0
      have hlo : (0 : ℤ) ≤ ⌊clamp s * 32767⌋ := Int.le_floor.mpr (by exact_mod_cast hv0)
      have hhi : ⌊clamp s * 32767⌋ ≤ 32767 := by
        have hcast : clamp s * 32767 ≤ ((32767 : ℤ) : ℚ) := by exact_mod_cast hv2
        have hm := Int.floor_mono hcast
        rwa [Int.floor_intCast] at hm
      simp only [encodeSample, toInt16, jsTrunc, if_neg hc.not_lt, if_neg hs, if_neg hvnlt]
      exact toInt16_id _ (by omega) (by omega)
  have h32767 : encodeSample 1 = 32767 := by
    have h := hmain 1
    have hcl : clamp (1 : ℚ) = 1 := by
      unfold clamp
      rw [min_self, max_eq_right (by norm_num : (-1 : ℚ) ≤ 1)]
    rw [h, if_neg (by norm_num), hcl, one_mul]
    have hfl : ⌊(32767 : ℚ)⌋ = 32767 := by norm_num [Int.floor_eq_iff]
    simp only [jsTrunc, if_neg (by norm_num : ¬ (32767 : ℚ) < 0), hfl]
  have hneg32768 : encodeSample (-1) = -32768 := by
    have h := hmain (-1)
    have hcl : clamp (-1 : ℚ) = -1 := by
      unfold clamp
      rw [min_eq_right (by norm_num : (-1 : ℚ) ≤ 1), max_self]
    rw [h, if_pos (by norm_num), hcl]
    have hcc : ⌈(-1 : ℚ) * 32768⌉ = -32768 := by norm_num [Int.ceil_eq_iff]
    simp only [jsTrunc, if_pos (by norm_num : (-1 : ℚ) * 32768 < 0), hcc]
  refine ⟨hmain, ?_, h32767, hneg32768, ?_, ?_⟩
  · have h := hmain 0
    have hcl : clamp (0 : ℚ) = 0 := by
      unfold clamp
      rw [min_eq_right (by norm_num : (0 : ℚ) ≤ 1), max_eq_right (by norm_num : (-1 : ℚ) ≤ 0)]
    rw [h, if_neg (by norm_num), hcl, zero_mul]
    simp only [jsTrunc, if_neg (by norm_num : ¬ (0 : ℚ) < 0), Int.floor_zero]
  · intro s h1s
    have hcl : clamp s = 1 := by
      unfold clamp
      rw [min_eq_left (le_of_lt h1s), max_eq_right (by norm_num : (-1 : ℚ) ≤ 1)]
    have h := hmain s
    rw [h, if_neg (by linarith), hcl, one_mul]
    have hfl : ⌊(32767 : ℚ)⌋ = 32767 := by norm_num [Int.floor_eq_iff]
    simp only [jsTrunc, if_neg (by norm_num : ¬ (32767 : ℚ) < 0), hfl]
  · intro s h1s
    have hcl : clamp s = -1 := by
      unfold clamp
      rw [min_eq_right (by linarith), max_eq_left (le_of_lt h1s)]
    have h := hmain s
    rw [h, if_pos (by linarith), hcl]
    have hcc : ⌈(-1 : ℚ) * 32768⌉ = -32768 := by norm_num [Int.ceil_eq_iff]
    simp only [jsTrunc, if_pos (by norm_num : (-1 : ℚ) * 32768 < 0), hcc]

/-- Witness for C2's conditional parts: a sample above 1 encodes to 32767
and a sample below -1 encodes to -32768. -/
theorem encode_spec_witness : encodeSample 2 = 32767 ∧ encodeSample (-2) = -32768 :=
  ⟨encode_spec.2.2.2.2.1 2 (by norm_num), encode_spec.2.2.2.2.2 (-2) (by norm_num)⟩

/-- The character class of JavaScript's regex `\s` (which also matches the
whitespace set used by `String.prototype.trim`). -/
def isJsWhitespace (c : Char) : Bool :=
  decide (c.toNat ∈ [9, 10, 11, 12, 13, 32, 0xA0, 0x1680, 0x2028, 0x2029,
    0x202F, 0x205F, 0x3000, 0xFEFF]) ||
  decide (0x2000 ≤ c.toNat ∧ c.toNat ≤ 0x200A)

/-- `replace(/\s+/g, ' ')`: every maximal run of whitespace becomes a
single space.  The flag records whether the previous character was part
of a whitespace run. -/
def collapseWs : Bool → List Char → List Char
  | _, [] => []
  | prevWs, c :: rest =>
    if isJsWhitespace c then
      if prevWs then collapseWs true rest else ' ' :: collapseWs true rest
    else c :: collapseWs false rest

/-- Remove a trailing whitespace run. -/
def dropTrailingWs : List Char → List Char
  | [] => []
  | c :: rest =>
    let r := dropTrailingWs rest
    if r.isEmpty && isJsWhitespace c then [] else c :: r

/-- `String.prototype.trim` on a character list: drop leading and trailing
whitespace. -/
def jsTrimChars (l : List Char) : List Char :=
  dropTrailingWs (l.dropWhile isJsWhitespace)

/-- `String.prototype.trim`. -/
def jsTrim (s : String) : String := String.mk (jsTrimChars s.data)

/-- `s.replace(/\s+/g, ' ').trim()` — the whitespace normalization used on
every transcript update in `socket.onmessage`. -/
def jsNormalize (s : String) : String :=
  String.mk (jsTrimChars (collapseWs false s.data))

/-- The reconciler's state: `completeTranscript` accumulates final
segments, `currentPartial` holds the latest partial segment
(README lines 194-195). -/
structure Transcript where
  completeTranscript : String
  currentPartial : String
deriving DecidableEq

/-- A decoded inbound message: `data.type` (`"partial"` maps to `interim`
here, `"final"` to `final`) together with the `value` fields of
`data.elements`. -/
inductive TranscriptEvent where
  | interim (elements : List String)
  | final (elements : List String)
deriving DecidableEq

/-- Embedding of the `socket.onmessage` handler (README lines 197-215):
`transcribedText = data.elements.map(e => e.value).join(" ")`; a partial
event replaces `currentPartial` with the trimmed text and displays
`(completeTranscript + ' ' + currentPartial)` normalized; a final event
folds the text into `completeTranscript` (normalized), clears
`currentPartial` and displays the new `completeTranscript`.  Returns the
new state together with the displayed text. -/
def handleMessage : Transcript → TranscriptEvent → Transcript × String
  | t, .interim elements =>
    let transcribedText := String.intercalate " " elements
    let cp := jsTrim transcribedText
    (⟨t.completeTranscript, cp⟩,
      jsNormalize (t.completeTranscript ++ " " ++ cp))
  | t, .final elements =>
    let transcribedText := String.intercalate " " elements
    let c := jsNormalize (t.completeTranscript ++ " " ++ transcribedText)
    (⟨c, ""⟩, c)

/-- Fold a list of inbound events through `handleMessage`, collecting each
displayed transcript value in order. -/
def runTranscript (t : Transcript) (evs : List TranscriptEvent) :
    Transcript × List String :=
  evs.foldl (fun acc e =>
    ((handleMessage acc.1 e).1, acc.2 ++ [(handleMessage acc.1 e).2])) (t, [])

/-- C3: from the empty transcript, the event sequence
partial "hi", partial "hi there", final "hi there", partial "next"
displays "hi", "hi there", "hi there", "hi there next" in order; every
partial event keeps the committed text and replaces only the pending
text, and every final event appends its text to the committed text and
clears the pending text. -/
theorem reconcile_sequence :
    runTranscript ⟨"", ""⟩
      [TranscriptEvent.interim ["hi"], TranscriptEvent.interim ["hi there"],
       TranscriptEvent.final ["hi there"], TranscriptEvent.interim ["next"]] =
      (⟨"hi there", "next"⟩, ["hi", "hi there", "hi there", "hi there next"]) ∧
    (∀ (t : Transcript) (elements : List String),
      (handleMessage t (.interim elements)).1 =
        ⟨t.completeTranscript, jsTrim (String.intercalate " " elements)⟩) ∧
    (∀ (t : Transcript) (elements : List String),
      (handleMessage t (.final elements)).1 =
        ⟨jsNormalize (t.completeTranscript ++ " " ++ String.intercalate " " elements), ""⟩) :=
  ⟨by decide, fun t elements => rfl, fun t elements => rfl⟩

lemma ws_space : isJsWhitespace ' ' = true := by decide

/-- Whether the last character of `l` is whitespace (`b` for the empty
list: the state carried into `l`). -/
def endsWs : Bool → List Char → Bool
  | b, [] => b
  | _, c :: rest => endsWs (isJsWhitespace c) rest

lemma collapseWs_append_space (l : List Char) : ∀ b : Bool,
    collapseWs b (l ++ [' ']) =
      if endsWs b l then collapseWs b l else collapseWs b l ++ [' '] := by
  induction l with
  | nil =>
    intro b
    cases b <;> simp [collapseWs, endsWs, ws_space]
  | cons c rest ih =>
    intro b
    by_cases hc : isJsWhitespace c
    · simp only [List.cons_append, collapseWs, hc, if_true, endsWs, List.append_eq]
      cases b <;> by_cases h2 : endsWs true rest <;> simp [h2, ih]
    · simp only [List.cons_append, collapseWs, hc, if_false, endsWs,
        Bool.false_eq_true, List.append_eq]
      by_cases h2 : endsWs false rest <;> simp [h2, hc, ih]

lemma dropTrailingWs_append_space (l : List Char) :
    dropTrailingWs (l ++ [' ']) = dropTrailingWs l := by
  induction l with
  | nil => simp [dropTrailingWs, ws_space]
  | cons c rest ih => simp only [List.cons_append, dropTrailingWs, List.append_eq, ih]

lemma dropWhile_ws_append_space (l : List Char) :
    (l ++ [' ']).dropWhile isJsWhitespace =
      if (l.dropWhile isJsWhitespace).isEmpty then []
      else l.dropWhile isJsWhitespace ++ [' '] := by
  induction l with
  | nil => simp [List.dropWhile, ws_space]
  | cons c rest ih =>
    by_cases hc : isJsWhitespace c
    · simpa [List.dropWhile_cons, hc] using ih
    · simp [List.dropWhile_cons, hc]

lemma jsTrimChars_append_space (l : List Char) :
    jsTrimChars (l ++ [' ']) = jsTrimChars l := by
  unfold jsTrimChars
  rw [dropWhile_ws_append_space]
  by_cases h : (l.dropWhile isJsWhitespace).isEmpty
  · rw [if_pos h, List.isEmpty_iff.mp h]
  · rw [if_neg h, dropTrailingWs_append_space]

lemma jsNormalize_append_space (s : String) :
    jsNormalize (s ++ " ") = jsNormalize s := by
  unfold jsNormalize
  rw [String.data_append]
  have hd : (" " : String).data = [' '] := rfl
  rw [hd, collapseWs_append_space s.data false]
  by_cases h : endsWs false s.data
  · rw [if_pos h]
  · rw [if_neg h, jsTrimChars_append_space]

/-- Every whitespace character in the list is a plain space. -/
def allWsSpace : List Char → Bool
  | [] => true
  | c :: rest => (!isJsWhitespace c || c == ' ') && allWsSpace rest

/-- No two adjacent characters are both whitespace. -/
def noBadPair : List Char → Bool
  | [] => true
  | [_] => true
  | c :: d :: rest => (!(isJsWhitespace c && isJsWhitespace d)) && noBadPair (d :: rest)

lemma noBadPair_tail {c : Char} {rest : List Char}
    (h : noBadPair (c :: rest) = true) : noBadPair rest = true := by
  cases rest with
  | nil => rfl
  | cons d ds => simp [noBadPair] at h; exact h.2

lemma collapseWs_head_true (l : List Char) :
    ∀ c rest, collapseWs true l = c :: rest → isJsWhitespace c = false := by
  induction l with
  | nil => intro c rest h; simp [collapseWs] at h
  | cons a as ih =>
    intro c rest h
    by_cases ha : isJsWhitespace a
    · rw [show collapseWs true (a :: as) = collapseWs true as by
        simp [collapseWs, ha]] at h
      exact ih c rest h
    · rw [show collapseWs true (a :: as) = a :: collapseWs false as by
        simp [collapseWs, ha]] at h
      obtain ⟨h1, _⟩ := List.cons.inj h
      rw [← h1]
      simpa using ha

lemma collapseWs_allWsSpace (l : List Char) :
    ∀ b, allWsSpace (collapseWs b l) = true := by
  induction l with
  | nil => intro b; rfl
  | cons a as ih =>
    intro b
    by_cases ha : isJsWhitespace a
    · cases b
      · simp [collapseWs, ha, allWsSpace, ih true]
      · simp [collapseWs, ha, ih true]
    · simp [collapseWs, ha, allWsSpace, ih false]

lemma collapseWs_noBadPair (l : List Char) :
    ∀ b, noBadPair (collapseWs b l) = true := by
  induction l with
  | nil => intro b; rfl
  | cons a as ih =>
    intro b
    by_cases ha : isJsWhitespace a
    · cases b
      · rw [show collapseWs false (a :: as) = ' ' :: collapseWs true as by
          simp [collapseWs, ha]]
        cases hX : collapseWs true as with
        | nil => rfl
        | cons x xs =>
          have hx : isJsWhitespace x = false := collapseWs_head_true as x xs hX
          have hnb := ih true
          rw [hX] at hnb
          simp [noBadPair, hx, hnb]
      · rw [show collapseWs true (a :: as) = collapseWs true as by
          simp [collapseWs, ha]]
        exact ih true
    · rw [show collapseWs b (a :: as) = a :: collapseWs false as by
        simp [collapseWs, ha]]
      cases hX : collapseWs false as with
      | nil => rfl
      | cons x xs =>
        have hnb := ih false
        rw [hX] at hnb
        simp [noBadPair, ha, hnb]

lemma dropWhile_ws_head (l : List Char) :
    ∀ c rest, l.dropWhile isJsWhitespace = c :: rest → isJsWhitespace c = false := by
  induction l with
  | nil => intro c rest h; simp at h
  | cons a as ih =>
    intro c rest h
    by_cases ha : isJsWhitespace a
    · rw [List.dropWhile_cons_of_pos ha] at h
      exact ih c rest h
    · rw [List.dropWhile_cons_of_neg ha] at h
      obtain ⟨h1, _⟩ := List.cons.inj h
      rw [← h1]
      simpa using ha

lemma dropTrailingWs_shape (a : Char) (as : List Char) :
    dropTrailingWs (a :: as) = [] ∨
      dropTrailingWs (a :: as) = a :: dropTrailingWs as := by
  by_cases hcond : ((dropTrailingWs as).isEmpty && isJsWhitespace a) = true
  · left
    simp only [dropTrailingWs, hcond, if_true]
  · right
    simp only [dropTrailingWs, hcond, if_false, Bool.false_eq_true]

lemma dropTrailingWs_cons_head (l : List Char) :
    ∀ c rest, dropTrailingWs l = c :: rest → ∃ t, l = c :: t := by
  intro c rest h
  cases l with
  | nil => simp [dropTrailingWs] at h
  | cons a as =>
    rcases dropTrailingWs_shape a as with h2 | h2 <;> rw [h2] at h
    · exact absurd h (by simp)
    · obtain ⟨h1, _⟩ := List.cons.inj h
      exact ⟨as, by rw [h1]⟩

lemma dropTrailingWs_getLast (l : List Char) :
    ∀ c, (dropTrailingWs l).getLast? = some c → isJsWhitespace c = false := by
  induction l with
  | nil => intro c h; simp [dropTrailingWs] at h
  | cons a as ih =>
    intro c h
    unfold dropTrailingWs at h
    by_cases hcond : ((dropTrailingWs as).isEmpty && isJsWhitespace a) = true
    · rw [if_pos hcond] at h
      simp at h
    · rw [if_neg hcond] at h
      cases hE : dropTrailingWs as with
      | nil =>
        rw [hE] at h hcond
        simp at h hcond
        rw [h] at hcond
        simpa using hcond
      | cons x xs =>
        rw [hE] at h
        rw [List.getLast?_cons_cons] at h
        rw [← hE] at h
        exact ih c h

lemma allWsSpace_tail {c : Char} {rest : List Char}
    (h : allWsSpace (c :: rest) = true) : allWsSpace rest = true := by
  simp [allWsSpace] at h
  exact h.2

lemma allWsSpace_dropWhile (l : List Char) (h : allWsSpace l = true) :
    allWsSpace (l.dropWhile isJsWhitespace) = true := by
  induction l with
  | nil => exact h
  | cons a as ih =>
    by_cases ha : isJsWhitespace a
    · rw [List.dropWhile_cons_of_pos ha]
      exact ih (allWsSpace_tail h)
    · rwa [List.dropWhile_cons_of_neg ha]

lemma allWsSpace_dropTrailing (l : List Char) (h : allWsSpace l = true) :
    allWsSpace (dropTrailingWs l) = true := by
  induction l with
  | nil => exact h
  | cons a as ih =>
    rcases dropTrailingWs_shape a as with h2 | h2 <;> rw [h2]
    · rfl
    · simp [allWsSpace] at h ⊢
      exact ⟨h.1, by simpa using ih (by simp [allWsSpace, h.2])⟩

lemma noBadPair_dropWhile (l : List Char) (h : noBadPair l = true) :
    noBadPair (l.dropWhile isJsWhitespace) = true := by
  induction l with
  | nil => exact h
  | cons a as ih =>
    by_cases ha : isJsWhitespace a
    · rw [List.dropWhile_cons_of_pos ha]
      exact ih (noBadPair_tail h)
    · rwa [List.dropWhile_cons_of_neg ha]

lemma noBadPair_dropTrailing (l : List Char) (h : noBadPair l = true) :
    noBadPair (dropTrailingWs l) = true := by
  induction l with
  | nil => exact h
  | cons a as ih =>
    rcases dropTrailingWs_shape a as with h2 | h2 <;> rw [h2]
    · rfl
    · cases hE : dropTrailingWs as with
      | nil => rfl
      | cons x xs =>
        obtain ⟨t, ht⟩ := dropTrailingWs_cons_head as x xs hE
        have hpair : (!(isJsWhitespace a && isJsWhitespace x)) = true := by
          rw [ht] at h
          simp [noBadPair] at h
          simp [h.1]
        have htail : noBadPair (dropTrailingWs as) = true := ih (noBadPair_tail h)
        rw [hE] at htail
        simp [noBadPair, htail]
        simpa using hpair

lemma collapseWs_id_aux (m : List Char) (hnb : noBadPair m = true)
    (haw : allWsSpace m = true) :
    collapseWs false m = m ∧
      ((∀ c rest, m = c :: rest → isJsWhitespace c = false) →
        collapseWs true m = m) := by
  induction m with
  | nil => exact ⟨rfl, fun _ => rfl⟩
  | cons a as ih =>
    have hnb' := noBadPair_tail hnb
    have haw' := allWsSpace_tail haw
    obtain ⟨ihf, iht⟩ := ih hnb' haw'
    by_cases ha : isJsWhitespace a
    · have ha' : a = ' ' := by
        simp [allWsSpace, ha] at haw
        exact haw.1
      have hashead : ∀ c rest, as = c :: rest → isJsWhitespace c = false := by
        intro c rest hcr
        rw [hcr] at hnb
        simp [noBadPair, ha] at hnb
        simp [hnb.1]
      constructor
      · rw [show collapseWs false (a :: as) = ' ' :: collapseWs true as by
          simp [collapseWs, ha]]
        rw [iht hashead, ha']
      · intro hno
        exact absurd (hno a as rfl) (by simp [ha])
    · constructor
      · rw [show collapseWs false (a :: as) = a :: collapseWs false as by
          simp [collapseWs, ha]]
        rw [ihf]
      · intro _
        rw [show collapseWs true (a :: as) = a :: collapseWs false as by
          simp [collapseWs, ha]]
        rw [ihf]

lemma dropWhile_ws_id (m : List Char)
    (h : ∀ c rest, m = c :: rest → isJsWhitespace c = false) :
    m.dropWhile isJsWhitespace = m := by
  cases m with
  | nil => rfl
  | cons a as =>
    exact List.dropWhile_cons_of_neg (by simp [h a as rfl])

lemma dropTrailingWs_id (m : List Char)
    (h : ∀ c, m.getLast? = some c → isJsWhitespace c = false) :
    dropTrailingWs m = m := by
  induction m with
  | nil => rfl
  | cons a as ih =>
    cases as with
    | nil =>
      have ha : isJsWhitespace a = false := h a (by simp)
      simp [dropTrailingWs, ha]
    | cons b bs =>
      have ih' := ih (fun c hc => h c (by rwa [List.getLast?_cons_cons]))
      unfold dropTrailingWs
      rw [ih']
      simp

lemma jsTrimChars_clean_id (m : List Char)
    (hhead : ∀ c rest, m = c :: rest → isJsWhitespace c = false)
    (hlast : ∀ c, m.getLast? = some c → isJsWhitespace c = false) :
    jsTrimChars m = m := by
  unfold jsTrimChars
  rw [dropWhile_ws_id m hhead, dropTrailingWs_id m hlast]

lemma jsNormalize_idem (s : String) :
    jsNormalize (jsNormalize s) = jsNormalize s := by
  show String.mk (jsTrimChars (collapseWs false
      (jsTrimChars (collapseWs false s.data)))) = _
  set m := jsTrimChars (collapseWs false s.data) with hm
  have hnb : noBadPair m = true :=
    noBadPair_dropTrailing _ (noBadPair_dropWhile _ (collapseWs_noBadPair s.data false))
  have haw : allWsSpace m = true :=
    allWsSpace_dropTrailing _ (allWsSpace_dropWhile _ (collapseWs_allWsSpace s.data false))
  have hhead : ∀ c rest, m = c :: rest → isJsWhitespace c = false := by
    intro c rest h
    obtain ⟨t, ht⟩ := dropTrailingWs_cons_head _ c rest h
    exact dropWhile_ws_head _ c t ht
  have hlast : ∀ c, m.getLast? = some c → isJsWhitespace c = false :=
    dropTrailingWs_getLast _
  rw [(collapseWs_id_aux m hnb haw).1, jsTrimChars_clean_id m hhead hlast]
  rfl

/-- C6: for every state reached after an event, the displayed value equals
`normalize(committed ++ " " ++ pending)` with whitespace runs collapsed to
single spaces and ends trimmed; in particular committed "a  b" with
pending " c" displays as "a b c". -/
theorem display_normalized :
    (∀ (t : Transcript) (e : TranscriptEvent),
      (handleMessage t e).2 =
        jsNormalize ((handleMessage t e).1.completeTranscript ++ " " ++
          (handleMessage t e).1.currentPartial)) ∧
    jsNormalize ("a  b" ++ " " ++ " c") = "a b c" := by
  constructor
  · intro t e
    cases e with
    | interim elements => rfl
    | final elements =>
      show jsNormalize (t.completeTranscript ++ " " ++
          String.intercalate " " elements) =
        jsNormalize (jsNormalize (t.completeTranscript ++ " " ++
          String.intercalate " " elements) ++ " " ++ "")
      rw [String.append_empty, jsNormalize_append_space, jsNormalize_idem]
  · decide

/-- Events interleaved on the single event loop while a session streams:
the socket's open callback and the audio-processing callback with one
4096-sample frame. -/
inductive PipeEvent where
  | socketOpen
  | audioProcess (frame : List ℚ)
deriving DecidableEq

/-- The mutable state visible to the callbacks registered by
`startRecord`: the `isServerReady` flag (README line 187), the `context`
binding checked by the audio callback, the context's sample rate, the
frames sent on the socket, and the raw-input `audioDataCache`. -/
structure PipeState where
  isServerReady : Bool
  hasContext : Bool
  sampleRate : ℚ
  sent : List (List ℤ)
  audioDataCache : List (List ℚ)
deriving DecidableEq

/-- One callback dispatch.  `socket.onopen` sets `isServerReady`;
`recorder.onaudioprocess` (README lines 232-248) returns immediately when
`!context || !isServerReady`, and otherwise resamples, encodes, caches
the raw frame and sends the encoded frame. -/
def stepPipe (s : PipeState) (e : PipeEvent) : PipeState :=
  match e with
  | .socketOpen => { s with isServerReady := true }
  | .audioProcess frame =>
    if !s.hasContext || !s.isServerReady then s
    else
      { s with
        audioDataCache := s.audioDataCache ++ [frame],
        sent := s.sent ++ [encodeFrame (resampleTo16kHZ frame s.sampleRate)] }

/-- The state right after `startRecord` wires the callbacks: the server is
not yet ready, the context exists, nothing sent, nothing cached. -/
def initPipeState (rate : ℚ) : PipeState :=
  { isServerReady := false, hasContext := true, sampleRate := rate,
    sent := [], audioDataCache := [] }

/-- Dispatch a sequence of callbacks in arrival order. -/
def runPipe (s : PipeState) (evs : List PipeEvent) : PipeState :=
  evs.foldl stepPipe s

lemma runPipe_no_open (evs : List PipeEvent) :
    ∀ s : PipeState, PipeEvent.socketOpen ∉ evs → s.isServerReady = false →
      runPipe s evs = s := by
  induction evs with
  | nil => intro s _ _; rfl
  | cons e rest ih =>
    intro s hmem hready
    have he : e ≠ PipeEvent.socketOpen := fun h => hmem (h ▸ List.mem_cons_self e rest)
    have hstep : stepPipe s e = s := by
      cases e with
      | socketOpen => exact absurd rfl he
      | audioProcess frame => simp [stepPipe, hready]
    show runPipe (stepPipe s e) rest = s
    rw [hstep]
    exact ih s (fun h => hmem (List.mem_cons_of_mem e h)) hready

/-- C4: no encoded frame is sent (and no frame is cached) on any callback
trace that does not contain the socket-open event; an audio-processing
callback firing while the server is not ready leaves the state entirely
unchanged (nothing sent, queued or retained); and only the socket-open
callback can turn the ready flag on. -/
theorem no_send_before_open :
    (∀ (rate : ℚ) (evs : List PipeEvent), PipeEvent.socketOpen ∉ evs →
      (runPipe (initPipeState rate) evs).sent = [] ∧
      (runPipe (initPipeState rate) evs).audioDataCache = []) ∧
    (∀ (s : PipeState) (frame : List ℚ), s.isServerReady = false →
      stepPipe s (.audioProcess frame) = s) ∧
    (∀ (s : PipeState) (e : PipeEvent), (stepPipe s e).isServerReady = true →
      s.isServerReady = true ∨ e = .socketOpen) := by
  refine ⟨?_, ?_, ?_⟩
  · intro rate evs hmem
    rw [runPipe_no_open evs (initPipeState rate) hmem rfl]
    exact ⟨rfl, rfl⟩
  · intro s frame hready
    simp [stepPipe, hready]
  · intro s e h
    cases e with
    | socketOpen => exact Or.inr rfl
    | audioProcess frame =>
      left
      by_cases hc : (!s.hasContext || !s.isServerReady) = true
      · rw [show stepPipe s (.audioProcess frame) = s by simp [stepPipe, hc]] at h
        exact h
      · simp at hc
        exact hc.2

/-- Witness for C4: with the server never signalled ready, an audio frame
is dropped — nothing is sent and nothing is cached — and the
single-callback no-op holds at a concrete state. -/
theorem no_send_before_open_witness :
    (runPipe (initPipeState 44100) [PipeEvent.audioProcess [1, 0]]).sent = [] ∧
    stepPipe (initPipeState 48000) (.audioProcess [1/2]) = initPipeState 48000 :=
  ⟨(no_send_before_open.1 44100 [PipeEvent.audioProcess [1, 0]] (by decide)).1,
   no_send_before_open.2.1 (initPipeState 48000) [1/2] rfl⟩

/-- Observable side effects of the lifecycle functions. -/
inductive Act where
  | socketClosed
  | recorderDisconnected
  | mediaStreamDisconnected
  | trackStopped (id : ℕ)
  | contextClosed
  | downloaded (filename : String) (content : String)
deriving DecidableEq

/-- `window.recordingSession`: each resource slot may be `null`
(README lines 168-174 initialize most slots to `null` before they are
filled in). The captured stream is modelled by the list of its track
identifiers. -/
structure Session where
  stream : Option (List ℕ)
  socket : Option Unit
  recorder : Option Unit
  context : Option Unit
  mediaStream : Option Unit
deriving DecidableEq

/-- The world visible to `startRecord` / `stopRecording`: the global
session, the persisted `currentTranscription` key (absent when never
written), the current time's ISO-8601 string, whether the host window is
open, how many WebSocket connections were opened, whether an
audio-processing callback was registered, and the log of released
resources / downloads. -/
structure World where
  recordingSession : Option Session
  currentTranscription : Option String
  nowIso : String
  windowOpen : Bool
  socketsCreated : ℕ
  callbackRegistered : Bool
  actions : List Act
deriving DecidableEq

/-- `new Date().toISOString().replace(/[:.]/g, '-')`. -/
def replaceColonsDots (s : String) : String :=
  String.mk (s.data.map (fun c => if c = ':' || c = '.' then '-' else c))

/-- The filename built by `downloadTranscription` (README lines 339-349):
`transcription-<timestamp>.txt`. -/
def downloadFilename (iso : String) : String :=
  "transcription-" ++ replaceColonsDots iso ++ ".txt"

/-- Embedding of `stopRecording` (README lines 258-296).  With no active
session it does nothing.  Otherwise each resource is released when (and
only when) it is present — each step has its own presence check, so no
step depends on an earlier one — then the persisted transcription is
read and, if truthy (present and non-empty), handed to
`downloadTranscription`; finally the session is cleared. -/
def stopRecording (w : World) : World :=
  match w.recordingSession with
  | none => w
  | some sess =>
    let a1 : List Act := if sess.socket.isSome then [Act.socketClosed] else []
    let a2 : List Act := if sess.recorder.isSome then [Act.recorderDisconnected] else []
    let a3 : List Act := if sess.mediaStream.isSome then [Act.mediaStreamDisconnected] else []
    let a4 : List Act := (sess.stream.getD []).map Act.trackStopped
    let a5 : List Act := if sess.context.isSome then [Act.contextClosed] else []
    let a6 : List Act :=
      match w.currentTranscription with
      | some t => if t = "" then [] else [Act.downloaded (downloadFilename w.nowIso) t]
      | none => []
    { w with
      recordingSession := none,
      actions := w.actions ++ a1 ++ a2 ++ a3 ++ a4 ++ a5 ++ a6 }

/-- Embedding of `startRecord` (README lines 154-255) after the capture
promise resolves with `stream?`.  A `null` stream closes the window and
creates nothing; otherwise the session is populated with all five
resources, a WebSocket is created and the audio callback registered. -/
def startRecord (stream? : Option (List ℕ)) (w : World) : World :=
  match stream? with
  | none => { w with windowOpen := false }
  | some tracks =>
    { w with
      recordingSession := some
        { stream := some tracks, socket := some (), recorder := some (),
          context := some (), mediaStream := some () },
      socketsCreated := w.socketsCreated + 1,
      callbackRegistered := true }

/-- A session in which every resource slot is populated, as `startRecord`
leaves it. -/
def fullSession : Session :=
  { stream := some [0, 1], socket := some (), recorder := some (),
    context := some (), mediaStream := some () }

/-- A world with an active fully-populated session and a persisted
transcript. -/
def sampleWorld : World :=
  { recordingSession := some fullSession,
    currentTranscription := some "hello world",
    nowIso := "2026-10-11T00:00:00.000Z", windowOpen := true,
    socketsCreated := 1, callbackRegistered := true, actions := [] }

/-- A world with an active session but no persisted transcription (no
transcript event ever arrived, so `currentTranscription` was never
written). -/
def noTranscriptWorld : World :=
  { recordingSession := some fullSession, currentTranscription := none,
    nowIso := "2026-10-11T00:00:00.000Z", windowOpen := true,
    socketsCreated := 1, callbackRegistered := true, actions := [] }

/-- A world with no active session. -/
def idleWorld : World :=
  { recordingSession := none, currentTranscription := none, nowIso := "",
    windowOpen := true, socketsCreated := 0, callbackRegistered := false,
    actions := [] }

/-- Recognizes a download side effect. -/
def isDownload : Act → Bool
  | .downloaded _ _ => true
  | _ => false

/-- C5: on a stop with an active session, whatever subset of resources is
present, every present resource is released (socket closed, recorder and
media-stream node disconnected, every track of the stream stopped,
context closed), each teardown step runs independently of the others,
and the session is cleared; in particular stopping right after a
successful start (before the connection opens) still stops every
captured track.  The embedding is a total function, so no branch
throws. -/
theorem stop_releases_all (w : World) (sess : Session)
    (h : w.recordingSession = some sess) :
    (stopRecording w).recordingSession = none ∧
    (sess.socket.isSome → Act.socketClosed ∈ (stopRecording w).actions) ∧
    (sess.recorder.isSome → Act.recorderDisconnected ∈ (stopRecording w).actions) ∧
    (sess.mediaStream.isSome → Act.mediaStreamDisconnected ∈ (stopRecording w).actions) ∧
    (∀ tracks, sess.stream = some tracks →
      ∀ i ∈ tracks, Act.trackStopped i ∈ (stopRecording w).actions) ∧
    (sess.context.isSome → Act.contextClosed ∈ (stopRecording w).actions) ∧
    (∀ tracks, ∀ i ∈ tracks,
      Act.trackStopped i ∈ (stopRecording (startRecord (some tracks) w)).actions) := by
  refine ⟨?_, ?_, ?_, ?_, ?_, ?_, ?_⟩
  · simp [stopRecording, h]
  · intro hx
    simp [stopRecording, h, hx, List.mem_append]
  · intro hx
    simp [stopRecording, h, hx, List.mem_append]
  · intro hx
    simp [stopRecording, h, hx, List.mem_append]
  · intro tracks hst i hi
    simp [stopRecording, h, hst, List.mem_append, List.mem_map]
    exact Or.inr (Or.inl hi)
  · intro hx
    simp [stopRecording, h, hx, List.mem_append]
  · intro tracks i hi
    simp [startRecord, stopRecording, List.mem_append, List.mem_map]
    exact Or.inr (Or.inl hi)

/-- Witness for C5 at a concrete world whose session holds every
resource. -/
theorem stop_releases_all_witness :
    (stopRecording sampleWorld).recordingSession = none ∧
    Act.socketClosed ∈ (stopRecording sampleWorld).actions ∧
    Act.trackStopped 0 ∈ (stopRecording sampleWorld).actions ∧
    Act.contextClosed ∈ (stopRecording sampleWorld).actions := by
  have h := stop_releases_all sampleWorld fullSession rfl
  exact ⟨h.1, h.2.1 rfl, h.2.2.2.2.1 [0, 1] rfl 0 (by decide), h.2.2.2.2.2.1 rfl⟩

/-- C7: when the capture API yields no stream, `startRecord` closes the
host window and otherwise changes nothing: no session resources are
created, no WebSocket connection is opened, no audio callback is
registered, and no side effect is performed. -/
theorem capture_unavailable_aborts (w : World) :
    (startRecord none w).windowOpen = false ∧
    (startRecord none w).recordingSession = w.recordingSession ∧
    (startRecord none w).socketsCreated = w.socketsCreated ∧
    (startRecord none w).callbackRegistered = w.callbackRegistered ∧
    (startRecord none w).actions = w.actions :=
  ⟨rfl, rfl, rfl, rfl, rfl⟩

/-- C10: stopping with no active session is a strict no-op, and since any
stop leaves the session cleared, stopping is idempotent. -/
theorem stop_idempotent :
    (∀ w : World, w.recordingSession = none → stopRecording w = w) ∧
    (∀ w : World, stopRecording (stopRecording w) = stopRecording w) := by
  have hnone : ∀ w : World, w.recordingSession = none → stopRecording w = w := by
    intro w h
    simp [stopRecording, h]
  refine ⟨hnone, ?_⟩
  intro w
  apply hnone
  cases hs : w.recordingSession with
  | none => rw [hnone w hs, hs]
  | some sess => simp [stopRecording, hs]

/-- Witness for C10: stopping the idle world changes nothing. -/
theorem stop_idempotent_witness : stopRecording idleWorld = idleWorld :=
  stop_idempotent.1 idleWorld rfl

/-- Counterexample to C8 as stated: a stop with an active session but no
persisted transcription performs the teardown yet hands nothing to the
download facility — the transcript is not unconditionally exported. -/
theorem stop_no_download_counterexample :
    (stopRecording noTranscriptWorld).recordingSession = none ∧
    (stopRecording noTranscriptWorld).actions.all (fun a => !isDownload a) = true := by
  decide

/-- C8 (amended): on a stop with an active session, if the persisted
transcript is present and non-empty it is handed to the download
facility as a plain-text file named `transcription-<timestamp>.txt`,
with every colon and dot of the ISO-8601 timestamp replaced by a
dash. -/
theorem stop_download_amended (w : World) (sess : Session) (t : String)
    (hs : w.recordingSession = some sess) (ht : w.currentTranscription = some t)
    (hne : t ≠ "") :
    Act.downloaded (downloadFilename w.nowIso) t ∈ (stopRecording w).actions := by
  simp [stopRecording, hs, ht, hne, List.mem_append]

/-- Witness for the amended C8 at a concrete world, with the filename
shown explicitly. -/
theorem stop_download_amended_witness :
    Act.downloaded (downloadFilename sampleWorld.nowIso) "hello world" ∈
      (stopRecording sampleWorld).actions ∧
    downloadFilename sampleWorld.nowIso = "transcription-2026-10-11T00-00-00-000Z.txt" :=
  ⟨stop_download_amended sampleWorld fullSession "hello world" rfl rfl (by decide),
   by decide⟩

end TabSnab
